import Mathlib

/-!
Verification of the rise-node Round Settlement Engine specification.

The repository sources contain the `IRoundLogic` interface declaration
(`logic/`-side implementation absent) and the `AccountsAPI` controller.
Round Logic, the Slot Calculator and the Round Orchestrator are therefore
modelled from the specification text; `AccountsAPI` is embedded directly
from `src/apis/accountsAPI.ts`.
-/

/-- Modelled from the spec: account fields a Balance Mutation may touch
(balance, unconfirmedBalance, producedBlocks, missedBlocks, rank). -/
inductive AccField
  | balance
  | unconfirmedBalance
  | producedBlocks
  | missedBlocks
  | rank
deriving DecidableEq, Repr

/-- Modelled from the spec: an abstract database operation (`DBOp` in the
sources' `genericTypes`). A Balance Mutation is a delta on an account field;
the Round Anchor write is an absolute value; `truncate` discards round rows
above a height; `noop` is the empty/identity mutation. -/
inductive DBOp
  | delta (accountKey : Nat) (field : AccField) (d : Int)
  | anchor (blockId : Nat)
  | truncate (height : Nat)
  | noop
deriving DecidableEq, Repr

/-- Modelled from the spec: the block data carried by a Round Scope. -/
structure Block where
  height : Nat
  id : Nat
  generatorPublicKey : Nat
  totalFee : Nat
  reward : Nat
  timestamp : Nat
deriving DecidableEq, Repr

/-- Modelled from the spec: the `RoundLogicScope` the implementation is
constructed with (the concrete `RoundLogic` class is absent from the
sources).  `delegates` is the round's ordered slot assignment;
`roundForgers` lists, in slot order, each delegate that produced at least
one block in the round together with its earned reward total; `roundFees`
is the round's total collected fees. -/
structure RoundScope where
  roundNumber : Nat
  block : Block
  delegates : List Nat
  isRoundEnd : Bool
  backward : Bool
  roundFees : Nat
  roundForgers : List (Nat × Nat)
deriving DecidableEq, Repr

/-- The sign of every emitted delta: forward mutations add, backward
mutations subtract (exact negation, per the spec's reversibility design). -/
def dirSign (s : RoundScope) : Int :=
  if s.backward then -1 else 1

namespace RoundLogic

/-- Modelled from the spec: `mergeBlockGenerator(scope)` credits the
block's generator with `reward` and records the produced block; backward
passes emit the exact negation. -/
def mergeBlockGenerator (s : RoundScope) : List DBOp :=
  [ DBOp.delta s.block.generatorPublicKey AccField.producedBlocks (dirSign s),
    DBOp.delta s.block.generatorPublicKey AccField.balance (dirSign s * (s.block.reward : Int)) ]

/-- The delegate assigned to this height's slot: the in-round position is
`(height - 1) mod roundSize`, indexing the scope's ordered slot list. -/
def assignedDelegate (s : RoundScope) : Option Nat :=
  s.delegates.get? ((s.block.height - 1) % s.delegates.length)

/-- Modelled from the spec: `updateMissedBlocks(scope)` increments (or on
backward decrements) the missed-block counter of the delegate whose
assigned slot was not filled by the actual generator; a no-op when the
generator matches the assigned slot. -/
def updateMissedBlocks (s : RoundScope) : DBOp :=
  match assignedDelegate s with
  | some d =>
      if d = s.block.generatorPublicKey then DBOp.noop
      else DBOp.delta d AccField.missedBlocks (dirSign s)
  | none => DBOp.noop

/-- Modelled from the spec: `markBlockId(scope)` writes the Round Anchor to
the current block id; on a backward pass with height effectively 0
(rolling back the genesis/round start) it resets the anchor to 0. -/
def markBlockId (s : RoundScope) : DBOp :=
  if s.backward && decide (s.block.height - 1 = 0) then DBOp.anchor 0
  else DBOp.anchor s.block.id

/-- Modelled from the spec: `truncateBlocks(scope)` discards round
bookkeeping rows for heights strictly greater than the scope's height. -/
def truncateBlocks (s : RoundScope) : DBOp :=
  DBOp.truncate s.block.height

/-- Modelled from the spec: each forger's payout, walking the forgers in
slot order; everyone receives `base` (the even fee share) plus its earned
reward total, and the last forger additionally receives `rem`, the fee
division remainder. -/
def sharesFrom (base rem : Nat) : List (Nat × Nat) → List (Nat × Nat)
  | [] => []
  | [p] => [(p.1, base + rem + p.2)]
  | p :: q :: rest => (p.1, base + p.2) :: sharesFrom base rem (q :: rest)

/-- Modelled from the spec: the per-forger payout list of a round-end scope
(even fee split with the remainder on the last forger, plus each forger's
earned reward total). -/
def roundShares (s : RoundScope) : List (Nat × Nat) :=
  sharesFrom (s.roundFees / s.roundForgers.length)
    (s.roundFees % s.roundForgers.length) s.roundForgers

/-- Modelled from the spec: `applyRound(scope)` emits one balance mutation
per forging delegate, in slot order; a backward pass emits the exact
negations in reverse slot order. -/
def applyRound (s : RoundScope) : List DBOp :=
  let muts := (roundShares s).map (fun p => DBOp.delta p.1 AccField.balance (dirSign s * (p.2 : Int)))
  if s.backward then muts.reverse else muts

/-- Modelled from the spec: `apply(scope)` composes, in fixed order,
`markBlockId`, `mergeBlockGenerator`, `updateMissedBlocks`, and (when the
scope ends a round) `applyRound`. -/
def apply (s : RoundScope) : List DBOp :=
  [markBlockId s] ++ mergeBlockGenerator s ++ [updateMissedBlocks s]
    ++ (if s.isRoundEnd then applyRound s else [])

/-- Modelled from the spec: `undo(scope)` composes the inverses in reverse
order: inverse `applyRound` (when round-end), inverse `updateMissedBlocks`,
inverse `mergeBlockGenerator`, then the `markBlockId` reset; the inverses
are the backward-pass emissions of the same scope. -/
def undo (s : RoundScope) : List DBOp :=
  let b : RoundScope := { s with backward := true }
  (if b.isRoundEnd then applyRound b else []) ++ [updateMissedBlocks b]
    ++ mergeBlockGenerator b ++ [markBlockId b]

end RoundLogic

/-- The net delta a single mutation contributes to account `a`'s field `f`;
anchor writes, truncations and no-ops contribute nothing. -/
def mutDelta (a : Nat) (f : AccField) : DBOp → Int
  | DBOp.delta a' f' d => if a' = a ∧ f' = f then d else 0
  | _ => 0

/-- The summed delta an operation list applies to account `a`'s field `f`. -/
def sumFor (ms : List DBOp) (a : Nat) (f : AccField) : Int :=
  (ms.map (mutDelta a f)).sum

/-- Whether a mutation is the Round Anchor write. -/
def isAnchorOp : DBOp → Bool
  | DBOp.anchor _ => true
  | _ => false

/-- Negate a mutation: deltas flip sign, other operations are unchanged. -/
def negOp : DBOp → DBOp
  | DBOp.delta a f d => DBOp.delta a f (-d)
  | m => m

/-- The total delta an operation list applies to field `f` across all
accounts (used to state currency conservation). -/
def fieldTotal (ms : List DBOp) (f : AccField) : Int :=
  (ms.map (fun m => match m with
    | DBOp.delta _ f' d => if f' = f then d else 0
    | _ => 0)).sum

/-- Modelled from the spec: the Slot Calculator's `roundOf(height)`, the
round number of a height for a fixed `roundSize` (heights 1..roundSize are
round 1, and so on). -/
def roundOf (roundSize height : Nat) : Nat :=
  (height + roundSize - 1) / roundSize

/-- Modelled from the spec: a height's in-round position. -/
def positionOf (roundSize height : Nat) : Nat :=
  (height - 1) % roundSize

/-- Modelled from the spec: the Round Orchestrator's chain-head state. -/
structure OrchState where
  currentHeight : Nat
deriving DecidableEq, Repr

/-- Modelled from the spec: the Orchestrator's error taxonomy. -/
inductive OrchError
  | OutOfOrderBlock
  | InvalidHeight
deriving DecidableEq, Repr

/-- Modelled from the spec: the Orchestrator accepts `apply block h` only
at exactly the current height plus one, else fails with OutOfOrderBlock. -/
def applyBlock (st : OrchState) (h : Nat) : Except OrchError OrchState :=
  if h = st.currentHeight + 1 then Except.ok ⟨h⟩
  else Except.error OrchError.OutOfOrderBlock

/-- Modelled from the spec: the Orchestrator accepts `undo block h` only at
exactly the current height, else fails with OutOfOrderBlock. -/
def undoBlock (st : OrchState) (h : Nat) : Except OrchError OrchState :=
  if h = st.currentHeight then Except.ok ⟨h - 1⟩
  else Except.error OrchError.OutOfOrderBlock

/-! ## AccountsAPI (embedded from `src/apis/accountsAPI.ts`) -/

/-- `APIError(message, statusCode)` from `apis/errors`. -/
structure APIError where
  message : String
  statusCode : Nat
deriving DecidableEq, Repr

/-- The account row the accounts module returns (`AccountsModel` fields the
controller reads; buffers are represented by their hex strings). -/
structure AccountsModel where
  address : String
  balance : Int
  u_balance : Int
  hexPublicKey : String
  secondPublicKey : Option String
  secondSignature : Nat
  u_secondSignature : Nat
  multisignatures : Option (List String)
  u_multisignatures : Option (List String)
deriving DecidableEq, Repr

/-- The filter object passed to `accountsModule.getAccount` (`theQuery`):
an address, and optionally the public key buffer (kept as its hex text). -/
structure AccountFilter where
  address : String
  publicKey : Option String
deriving DecidableEq, Repr

/-- The injected `IAccountsModule` collaborator, abstracted to the two
methods the controller calls. -/
structure AccountsModule where
  getAccount : AccountFilter → Option AccountsModel
  generateAddressByPublicKey : String → String

/-- `is-empty` on an optional query string: true for an absent parameter
and for the empty string. -/
def isEmptyS : Option String → Bool
  | none => true
  | some s => decide (s = "")

/-- The `GET /api/accounts/` query parameters. -/
structure AccQuery where
  address : Option String
  publicKey : Option String
deriving DecidableEq, Repr

/-- The account object `getAccount` returns. -/
structure AccountResp where
  address : String
  balance : String
  multisignatures : List String
  publicKey : String
  secondPublicKey : Option String
  secondSignature : Nat
  u_multisignatures : List String
  unconfirmedBalance : String
  u_secondSignature : Nat
deriving DecidableEq, Repr

/-- The `GET /api/accounts/getBalance` response. -/
structure BalanceResp where
  balance : String
  unconfirmedBalance : String
deriving DecidableEq, Repr

namespace AccountsAPI

/-- The response object built from a found account row (the `return`
object literal of `AccountsAPI.getAccount`). -/
def mkAccountResp (accData : AccountsModel) : AccountResp :=
  { address := accData.address
    balance := toString accData.balance
    multisignatures := accData.multisignatures.getD []
    publicKey := accData.hexPublicKey
    secondPublicKey := accData.secondPublicKey
    secondSignature := accData.secondSignature
    u_multisignatures := accData.u_multisignatures.getD []
    unconfirmedBalance := toString accData.u_balance
    u_secondSignature := accData.u_secondSignature }

/-- The tail of `AccountsAPI.getAccount`: look the account up with the
built filter and either fail with `Account not found` or return the
response object. -/
def accountLookup (m : AccountsModule) (theQuery : AccountFilter) :
    Except APIError AccountResp :=
  match m.getAccount theQuery with
  | none => Except.error ⟨"Account not found", 200⟩
  | some accData => Except.ok (mkAccountResp accData)

/-- `AccountsAPI.getAccount` (`GET /api/accounts/`). -/
def getAccount (m : AccountsModule) (query : AccQuery) :
    Except APIError AccountResp :=
  if isEmptyS query.address && isEmptyS query.publicKey then
    Except.error ⟨"Missing required property: address or publicKey", 200⟩
  else
    let address : String :=
      if !isEmptyS query.publicKey then
        m.generateAddressByPublicKey (query.publicKey.getD "")
      else query.address.getD ""
    if !isEmptyS query.address && !isEmptyS query.publicKey
        && decide (address ≠ query.address.getD "") then
      Except.error ⟨"Account publicKey does not match address", 200⟩
    else
      accountLookup m
        { address := address
          publicKey := if !isEmptyS query.publicKey then query.publicKey else none }

/-- `AccountsAPI.getBalance` (`GET /api/accounts/getBalance`). -/
def getBalance (m : AccountsModule) (address : String) : BalanceResp :=
  match m.getAccount { address := address, publicKey := none } with
  | some account => { balance := toString account.balance
                      unconfirmedBalance := toString account.u_balance }
  | none => { balance := "0", unconfirmedBalance := "0" }

/-- `AccountsAPI.getPublickey` (`GET /api/accounts/getPublicKey`). -/
def getPublickey (m : AccountsModule) (address : String) :
    Except APIError String :=
  match m.getAccount { address := address, publicKey := none } with
  | none => Except.error ⟨"Account not found", 200⟩
  | some account => Except.ok account.hexPublicKey

end AccountsAPI

/-- A concrete forward round-end scope: three delegate slots `[10, 11, 12]`,
block at height 3 generated by delegate 11, forgers 10 and 11 with reward
10 each, 7 collected fees (slot 2's delegate 12 missed its block). -/
def sampleScope : RoundScope :=
  { roundNumber := 1
    block := { height := 3, id := 77, generatorPublicKey := 11,
               totalFee := 2, reward := 10, timestamp := 0 }
    delegates := [10, 11, 12]
    isRoundEnd := true
    backward := false
    roundFees := 7
    roundForgers := [(10, 10), (11, 10)] }

/-- A round-end scope in which no delegate forged any block. -/
def emptyForgedScope : RoundScope :=
  { sampleScope with roundFees := 0, roundForgers := [] }

/-- A backward scope at the round's first height. -/
def rollbackScope : RoundScope :=
  { sampleScope with
    backward := true
    block := { sampleScope.block with height := 1 } }

/-- An accounts module holding no accounts, with a recognisable
address-derivation function. -/
def emptyModule : AccountsModule :=
  { getAccount := fun _ => none
    generateAddressByPublicKey := fun pk => String.append "A" pk }

/-! ## Helper lemmas -/

lemma sumFor_cons (m : DBOp) (ms : List DBOp) (a : Nat) (f : AccField) :
    sumFor (m :: ms) a f = mutDelta a f m + sumFor ms a f := by
  simp [sumFor]

lemma sumFor_append (l r : List DBOp) (a : Nat) (f : AccField) :
    sumFor (l ++ r) a f = sumFor l a f + sumFor r a f := by
  simp [sumFor]

lemma sumFor_reverse (l : List DBOp) (a : Nat) (f : AccField) :
    sumFor l.reverse a f = sumFor l a f := by
  simp [sumFor, List.map_reverse, List.sum_reverse]

lemma mutDelta_negOp (a : Nat) (f : AccField) (m : DBOp) :
    mutDelta a f (negOp m) = - mutDelta a f m := by
  cases m <;> simp [negOp, mutDelta]
  split <;> simp

lemma sumFor_negOp (l : List DBOp) (a : Nat) (f : AccField) :
    sumFor (l.map negOp) a f = - sumFor l a f := by
  induction l with
  | nil => simp [sumFor]
  | cons m t ih => simp [sumFor_cons, mutDelta_negOp, ih]; ring

lemma mutDelta_markBlockId (s : RoundScope) (a : Nat) (f : AccField) :
    mutDelta a f (RoundLogic.markBlockId s) = 0 := by
  unfold RoundLogic.markBlockId
  split <;> rfl

lemma mergeBlockGenerator_backward (s : RoundScope) (h : s.backward = false) :
    RoundLogic.mergeBlockGenerator { s with backward := true }
      = (RoundLogic.mergeBlockGenerator s).map negOp := by
  simp [RoundLogic.mergeBlockGenerator, negOp, dirSign, h]

lemma updateMissedBlocks_backward (s : RoundScope) (h : s.backward = false) :
    RoundLogic.updateMissedBlocks { s with backward := true }
      = negOp (RoundLogic.updateMissedBlocks s) := by
  have hA : RoundLogic.assignedDelegate { s with backward := true }
      = RoundLogic.assignedDelegate s := rfl
  unfold RoundLogic.updateMissedBlocks
  rw [hA]
  cases hD : RoundLogic.assignedDelegate s with
  | none => simp [negOp]
  | some d =>
      by_cases hg : d = s.block.generatorPublicKey <;>
        simp [hg, negOp, dirSign, h]

lemma sumFor_scaled (c : Int) (l : List (Nat × Nat)) (a : Nat) (f : AccField) :
    sumFor (l.map fun p => DBOp.delta p.1 AccField.balance (c * (p.2 : Int))) a f
      = c * sumFor (l.map fun p => DBOp.delta p.1 AccField.balance ((p.2 : Int))) a f := by
  induction l with
  | nil => simp [sumFor]
  | cons p t ih =>
      simp [sumFor_cons, ih, mutDelta]
      split <;> ring

lemma roundShares_backward (s : RoundScope) :
    RoundLogic.roundShares { s with backward := true } = RoundLogic.roundShares s := rfl

lemma applyRound_backward_sum (s : RoundScope) (h : s.backward = false)
    (a : Nat) (f : AccField) :
    sumFor (RoundLogic.applyRound { s with backward := true }) a f
      = - sumFor (RoundLogic.applyRound s) a f := by
  unfold RoundLogic.applyRound
  simp [h, dirSign, roundShares_backward, sumFor_reverse]
  have h1 := sumFor_scaled (-1) (RoundLogic.roundShares s) a f
  simp at h1
  exact h1

lemma sumFor_nil (a : Nat) (f : AccField) : sumFor [] a f = 0 := rfl

/-- The combined apply/undo operation list nets to zero on every account
field (shared by the reversibility and missed-block results). -/
lemma sumFor_apply_undo_zero (s : RoundScope) (h : s.backward = false)
    (a : Nat) (f : AccField) :
    sumFor (RoundLogic.apply s ++ RoundLogic.undo s) a f = 0 := by
  have hm := mergeBlockGenerator_backward s h
  have hu := updateMissedBlocks_backward s h
  have har := applyRound_backward_sum s h a f
  cases hRE : s.isRoundEnd <;>
    simp only [hRE] at hm hu har <;>
    simp [RoundLogic.apply, RoundLogic.undo, hRE, sumFor_append, sumFor_cons,
      sumFor_nil, hm, hu, sumFor_negOp, mutDelta_negOp, mutDelta_markBlockId,
      har]

lemma isAnchorOp_markBlockId (s : RoundScope) :
    isAnchorOp (RoundLogic.markBlockId s) = true := by
  unfold RoundLogic.markBlockId
  split <;> rfl

lemma isAnchorOp_mergeBlockGenerator (s : RoundScope) :
    ∀ m ∈ RoundLogic.mergeBlockGenerator s, isAnchorOp m = false := by
  intro m hm
  simp [RoundLogic.mergeBlockGenerator] at hm
  rcases hm with h | h <;> simp [h, isAnchorOp]

lemma isAnchorOp_updateMissedBlocks (s : RoundScope) :
    isAnchorOp (RoundLogic.updateMissedBlocks s) = false := by
  unfold RoundLogic.updateMissedBlocks
  split
  · split <;> rfl
  · rfl

lemma isAnchorOp_applyRound (s : RoundScope) :
    ∀ m ∈ RoundLogic.applyRound s, isAnchorOp m = false := by
  intro m hm
  simp only [RoundLogic.applyRound] at hm
  have hmem : m ∈ (RoundLogic.roundShares s).map
      (fun p => DBOp.delta p.1 AccField.balance (dirSign s * (p.2 : Int))) := by
    split at hm
    · exact List.mem_reverse.mp hm
    · exact hm
  obtain ⟨p, hp, rfl⟩ := List.mem_map.mp hmem
  rfl

lemma sharesFrom_snd_sum (base rem : Nat) :
    ∀ l : List (Nat × Nat), l ≠ [] →
      ((RoundLogic.sharesFrom base rem l).map Prod.snd).sum
        = base * l.length + rem + (l.map Prod.snd).sum := by
  intro l
  induction l with
  | nil => intro h; cases h rfl
  | cons p t ih =>
      intro _
      cases t with
      | nil =>
          simp [RoundLogic.sharesFrom]
      | cons q r =>
          have h2 : (q :: r : List (Nat × Nat)) ≠ [] := by simp
          simp [RoundLogic.sharesFrom, ih h2]
          ring

lemma sharesFrom_split (base rem : Nat) :
    ∀ (l : List (Nat × Nat)) (p : Nat × Nat), l.getLast? = some p →
      ∃ l', RoundLogic.sharesFrom base rem l = l' ++ [(p.1, base + rem + p.2)] := by
  intro l
  induction l with
  | nil => intro p hp; simp at hp
  | cons x t ih =>
      intro p hp
      cases t with
      | nil =>
          simp at hp
          subst hp
          exact ⟨[], rfl⟩
      | cons q r =>
          rw [List.getLast?_cons_cons] at hp
          obtain ⟨l', hl'⟩ := ih p hp
          exact ⟨(x.1, base + x.2) :: l', by
            rw [show RoundLogic.sharesFrom base rem (x :: q :: r)
                = (x.1, base + x.2) :: RoundLogic.sharesFrom base rem (q :: r) from rfl,
              hl']
            rfl⟩

lemma sharesFrom_getLast (base rem : Nat) (l : List (Nat × Nat)) (p : Nat × Nat)
    (hp : l.getLast? = some p) :
    (RoundLogic.sharesFrom base rem l).getLast? = some (p.1, base + rem + p.2) := by
  obtain ⟨l', hl'⟩ := sharesFrom_split base rem l p hp
  rw [hl', List.getLast?_concat]

lemma fieldTotal_map_delta (l : List (Nat × Nat)) :
    fieldTotal (l.map fun p => DBOp.delta p.1 AccField.balance ((p.2 : Int)))
      AccField.balance = ((l.map Prod.snd).sum : Int) := by
  induction l with
  | nil => simp [fieldTotal]
  | cons p t ih => simp [fieldTotal, List.map_cons] at ih ⊢; omega

lemma mutDelta_delta (a : Nat) (f : AccField) (a' : Nat) (f' : AccField)
    (d : Int) :
    mutDelta a f (DBOp.delta a' f' d) = if a' = a ∧ f' = f then d else 0 := rfl

lemma sumFor_map_balance_ne (l : List (Nat × Nat)) (g : Nat × Nat → Int)
    (a : Nat) (f : AccField) (hf : f ≠ AccField.balance) :
    sumFor (l.map fun p => DBOp.delta p.1 AccField.balance (g p)) a f = 0 := by
  induction l with
  | nil => rfl
  | cons p t ih =>
      rw [List.map_cons, sumFor_cons, ih, add_zero, mutDelta_delta,
        if_neg (fun hc => hf hc.2.symm)]

lemma sumFor_applyRound_ne_balance (s : RoundScope) (a : Nat) (f : AccField)
    (hf : f ≠ AccField.balance) :
    sumFor (RoundLogic.applyRound s) a f = 0 := by
  unfold RoundLogic.applyRound
  split
  · rw [sumFor_reverse]
    exact sumFor_map_balance_ne _ _ a f hf
  · exact sumFor_map_balance_ne _ _ a f hf

lemma fieldTotal_applyRound (s : RoundScope) (hb : s.backward = false) :
    fieldTotal (RoundLogic.applyRound s) AccField.balance
      = (((RoundLogic.roundShares s).map Prod.snd).sum : Int) := by
  unfold RoundLogic.applyRound
  simp only [hb, Bool.false_eq_true, if_false, dirSign, ite_false, one_mul]
  exact fieldTotal_map_delta _

lemma updateMissedBlocks_missed (s : RoundScope) (d : Nat)
    (hd : RoundLogic.assignedDelegate s = some d)
    (hne : d ≠ s.block.generatorPublicKey) :
    RoundLogic.updateMissedBlocks s
      = DBOp.delta d AccField.missedBlocks (dirSign s) := by
  unfold RoundLogic.updateMissedBlocks
  rw [hd]
  simp [hne]

lemma updateMissedBlocks_hit (s : RoundScope) (d : Nat)
    (hd : RoundLogic.assignedDelegate s = some d)
    (heq : d = s.block.generatorPublicKey) :
    RoundLogic.updateMissedBlocks s = DBOp.noop := by
  unfold RoundLogic.updateMissedBlocks
  rw [hd]
  simp [heq]

lemma sumFor_merge_ne (s : RoundScope) (a : Nat) (f : AccField)
    (h1 : f ≠ AccField.producedBlocks) (h2 : f ≠ AccField.balance) :
    sumFor (RoundLogic.mergeBlockGenerator s) a f = 0 := by
  have h1' : AccField.producedBlocks ≠ f := fun hc => h1 hc.symm
  have h2' : AccField.balance ≠ f := fun hc => h2 hc.symm
  simp [RoundLogic.mergeBlockGenerator, sumFor_cons, sumFor_nil, mutDelta_delta,
    h1', h2']

lemma roundOf_eq (rs h : Nat) (hrs : 0 < rs) (hh : 1 ≤ h) :
    roundOf rs h = (h - 1) / rs + 1 := by
  unfold roundOf
  have he : h + rs - 1 = (h - 1) + rs := by omega
  rw [he, Nat.add_div_right _ hrs]

lemma roundOf_mono (rs : Nat) (hrs : 0 < rs) (h h' : Nat) (hh : 1 ≤ h)
    (hle : h ≤ h') : roundOf rs h ≤ roundOf rs h' := by
  rw [roundOf_eq rs h hrs hh, roundOf_eq rs h' hrs (le_trans hh hle)]
  exact Nat.add_le_add_right
    (Nat.div_le_div_right (Nat.sub_le_sub_right hle 1)) 1

lemma roundOf_eq_iff (rs h r : Nat) (hrs : 0 < rs) (hh : 1 ≤ h) (hr : 1 ≤ r) :
    roundOf rs h = r ↔ ((r - 1) * rs + 1 ≤ h ∧ h ≤ r * rs) := by
  rw [roundOf_eq rs h hrs hh]
  obtain ⟨k, rfl⟩ : ∃ k, r = k + 1 := ⟨r - 1, by omega⟩
  simp only [Nat.add_sub_cancel]
  constructor
  · intro he
    have hg : (h - 1) / rs = k := Nat.add_right_cancel he
    have h1 : k * rs ≤ h - 1 := by rw [← hg]; exact Nat.div_mul_le_self _ _
    have h2 : h - 1 < (k + 1) * rs := by
      rw [← hg]
      exact (Nat.div_lt_iff_lt_mul hrs).mp (Nat.lt_succ_self _)
    constructor
    · have h3 := Nat.add_le_add_right h1 1
      rwa [Nat.sub_add_cancel hh] at h3
    · have h3 : h - 1 + 1 ≤ (k + 1) * rs := Nat.succ_le_of_lt h2
      rwa [Nat.sub_add_cancel hh] at h3
  · rintro ⟨h1, h2⟩
    have hg1 : k ≤ (h - 1) / rs :=
      (Nat.le_div_iff_mul_le hrs).mpr (Nat.le_pred_of_lt (Nat.lt_of_succ_le h1))
    have hg2 : (h - 1) / rs < k + 1 :=
      (Nat.div_lt_iff_lt_mul hrs).mpr
        (Nat.lt_of_lt_of_le (Nat.sub_lt hh Nat.one_pos) h2)
    have hg : (h - 1) / rs = k := Nat.le_antisymm (Nat.lt_succ_iff.mp hg2) hg1
    rw [hg]

lemma card_Icc_round (rs k : Nat) :
    (Finset.Icc (k * rs + 1) ((k + 1) * rs)).card = rs := by
  rw [Nat.card_Icc, Nat.succ_mul]
  have he : k * rs + rs + 1 = (k * rs + 1) + rs := by ring
  rw [he, Nat.add_sub_cancel_left]

lemma height_decomp (rs h : Nat) (hrs : 0 < rs) (hh : 1 ≤ h) :
    h = (roundOf rs h - 1) * rs + positionOf rs h + 1 := by
  rw [roundOf_eq rs h hrs hh, Nat.add_sub_cancel]
  unfold positionOf
  have h2 : (h - 1) / rs * rs + (h - 1) % rs = h - 1 := Nat.div_add_mod' _ _
  calc h = (h - 1) + 1 := (Nat.sub_add_cancel hh).symm
    _ = ((h - 1) / rs * rs + (h - 1) % rs) + 1 := by rw [h2]

/-! ## Claim theorems -/

/-- C1: for every Round Scope (as built by the Orchestrator, forward), the
mutation list produced by `apply(scope)` followed by the one produced by
`undo(scope)` on the same scope sums to zero on every account and every
account field touched: apply then undo is a no-op on ledger state. -/
theorem c1_apply_undo_reversible (s : RoundScope) (hb : s.backward = false)
    (a : Nat) (f : AccField) :
    sumFor (RoundLogic.apply s ++ RoundLogic.undo s) a f = 0 :=
  sumFor_apply_undo_zero s hb a f

/-- C1 witness: apply/undo of the sample round-end scope nets to zero on
the generator's balance. -/
theorem c1_witness :
    sumFor (RoundLogic.apply sampleScope ++ RoundLogic.undo sampleScope)
      11 AccField.balance = 0 :=
  c1_apply_undo_reversible sampleScope rfl 11 AccField.balance

/-- C2: `apply(scope)` is exactly the concatenation, in this fixed order,
of `markBlockId`, `mergeBlockGenerator`, `updateMissedBlocks` and (only at
round-end) `applyRound`; the Round Anchor mutation is the first element
and no later element is an anchor write, so the anchor lands before any
balance change. -/
theorem c2_apply_fixed_order (s : RoundScope) :
    RoundLogic.apply s
      = [RoundLogic.markBlockId s] ++ RoundLogic.mergeBlockGenerator s
        ++ [RoundLogic.updateMissedBlocks s]
        ++ (if s.isRoundEnd then RoundLogic.applyRound s else [])
    ∧ (RoundLogic.apply s).head? = some (RoundLogic.markBlockId s)
    ∧ isAnchorOp (RoundLogic.markBlockId s) = true
    ∧ (∀ m ∈ (RoundLogic.apply s).tail, isAnchorOp m = false) := by
  refine ⟨rfl, rfl, isAnchorOp_markBlockId s, ?_⟩
  intro m hm
  have ht : (RoundLogic.apply s).tail
      = RoundLogic.mergeBlockGenerator s ++ [RoundLogic.updateMissedBlocks s]
        ++ (if s.isRoundEnd then RoundLogic.applyRound s else []) := rfl
  rw [ht] at hm
  rcases List.mem_append.mp hm with hm' | hm'
  · rcases List.mem_append.mp hm' with hm'' | hm''
    · exact isAnchorOp_mergeBlockGenerator s m hm''
    · rw [List.mem_singleton.mp hm'']
      exact isAnchorOp_updateMissedBlocks s
  · rcases hre : s.isRoundEnd with _ | _ <;> rw [hre] at hm'
    · simp at hm'
    · exact isAnchorOp_applyRound s m (by simpa using hm')

/-- C2 witness: in the sample scope the list head is the anchor write, and
the generator-credit mutation sitting in the tail is not an anchor. -/
theorem c2_witness :
    (RoundLogic.apply sampleScope).head? = some (RoundLogic.markBlockId sampleScope)
    ∧ isAnchorOp (DBOp.delta 11 AccField.producedBlocks 1) = false :=
  ⟨(c2_apply_fixed_order sampleScope).2.1,
    (c2_apply_fixed_order sampleScope).2.2.2
      (DBOp.delta 11 AccField.producedBlocks 1) (by decide)⟩

/-- C3: for a round-end scope with at least one forger (forward pass), the
balance total emitted by `applyRound` is exactly the round's collected
fees plus the forgers' earned rewards — no currency lost or fabricated —
and the division remainder of the fee split is assigned to the last forger
in slot order. -/
theorem c3_fee_conservation (s : RoundScope) (hb : s.backward = false)
    (hne : s.roundForgers ≠ []) :
    fieldTotal (RoundLogic.applyRound s) AccField.balance
        = (s.roundFees : Int) + (((s.roundForgers.map Prod.snd).sum : Nat) : Int)
    ∧ (∀ p, s.roundForgers.getLast? = some p →
        (RoundLogic.roundShares s).getLast?
          = some (p.1, s.roundFees / s.roundForgers.length
              + s.roundFees % s.roundForgers.length + p.2)) := by
  constructor
  · have hsum := sharesFrom_snd_sum (s.roundFees / s.roundForgers.length)
      (s.roundFees % s.roundForgers.length) s.roundForgers hne
    have hdm := Nat.div_add_mod' s.roundFees s.roundForgers.length
    rw [fieldTotal_applyRound s hb, RoundLogic.roundShares, hsum]
    norm_cast
    rw [hdm]
  · intro p hp
    rw [RoundLogic.roundShares]
    exact sharesFrom_getLast _ _ _ p hp

/-- C3 witness: the sample scope's two forgers (rewards 10 + 10, fees 7)
receive mutations totalling 27. -/
theorem c3_witness :
    fieldTotal (RoundLogic.applyRound sampleScope) AccField.balance
      = (sampleScope.roundFees : Int)
        + (((sampleScope.roundForgers.map Prod.snd).sum : Nat) : Int) :=
  (c3_fee_conservation sampleScope rfl (by decide)).1

/-- C4: when the delegate assigned to this height's slot is not the actual
generator, `updateMissedBlocks` is the single mutation incrementing that
delegate's missed-block counter by 1 (decrementing on backward); across
the whole of `apply` the counter moves by exactly 1, and apply followed by
undo restores it.  When the generator matches the assigned slot the
operation is a no-op. -/
theorem c4_missed_block_accounting (s : RoundScope) (d : Nat)
    (hb : s.backward = false)
    (hd : RoundLogic.assignedDelegate s = some d) :
    (d ≠ s.block.generatorPublicKey →
      RoundLogic.updateMissedBlocks s = DBOp.delta d AccField.missedBlocks 1
      ∧ RoundLogic.updateMissedBlocks { s with backward := true }
          = DBOp.delta d AccField.missedBlocks (-1)
      ∧ sumFor (RoundLogic.apply s) d AccField.missedBlocks = 1
      ∧ sumFor (RoundLogic.apply s ++ RoundLogic.undo s) d AccField.missedBlocks = 0)
    ∧ (d = s.block.generatorPublicKey →
        RoundLogic.updateMissedBlocks s = DBOp.noop) := by
  have hsign : dirSign s = 1 := by simp [dirSign, hb]
  constructor
  · intro hne
    have hfwd := updateMissedBlocks_missed s d hd hne
    rw [hsign] at hfwd
    have hbwd : RoundLogic.updateMissedBlocks { s with backward := true }
        = DBOp.delta d AccField.missedBlocks (-1) := by
      rw [updateMissedBlocks_backward s hb, hfwd]
      rfl
    refine ⟨hfwd, hbwd, ?_, sumFor_apply_undo_zero s hb d AccField.missedBlocks⟩
    have hmerge := sumFor_merge_ne s d AccField.missedBlocks
      (by simp) (by simp)
    have har : ∀ l : List DBOp,
        (if s.isRoundEnd then RoundLogic.applyRound s else []) = l →
        sumFor l d AccField.missedBlocks
          = sumFor (if s.isRoundEnd then RoundLogic.applyRound s else [])
              d AccField.missedBlocks := fun _ hl => by rw [hl]
    have hend : sumFor (if s.isRoundEnd then RoundLogic.applyRound s else [])
        d AccField.missedBlocks = 0 := by
      rcases s.isRoundEnd with _ | _
      · simp [sumFor_nil]
      · simp [sumFor_applyRound_ne_balance s d AccField.missedBlocks (by simp)]
    rw [RoundLogic.apply, sumFor_append, sumFor_append, sumFor_append,
      hend, hfwd]
    simp [sumFor_cons, sumFor_nil, mutDelta_markBlockId, hmerge, mutDelta_delta]
  · intro heq
    exact updateMissedBlocks_hit s d hd heq

/-- C4 witness: in the sample scope, delegate 12 (slot 2) did not forge
height 3 (generator 11): its counter mutation is +1 and apply-then-undo
restores it. -/
theorem c4_witness :
    RoundLogic.updateMissedBlocks sampleScope
        = DBOp.delta 12 AccField.missedBlocks 1
    ∧ sumFor (RoundLogic.apply sampleScope ++ RoundLogic.undo sampleScope)
        12 AccField.missedBlocks = 0 := by
  have h := (c4_missed_block_accounting sampleScope 12 rfl (by decide)).1 (by decide)
  exact ⟨h.1, h.2.2.2⟩

/-- C5: the Orchestrator rejects, with OutOfOrderBlock, every apply whose
height is not exactly current + 1 and every undo whose height is not
exactly current; in particular applying the same height twice in a row
without an intervening undo fails with OutOfOrderBlock. -/
theorem c5_out_of_order_rejection (st : OrchState) (h : Nat) :
    (h ≠ st.currentHeight + 1 →
      applyBlock st h = Except.error OrchError.OutOfOrderBlock)
    ∧ (h ≠ st.currentHeight →
      undoBlock st h = Except.error OrchError.OutOfOrderBlock)
    ∧ (∀ st', applyBlock st h = Except.ok st' →
      applyBlock st' h = Except.error OrchError.OutOfOrderBlock) := by
  refine ⟨fun hne => by simp [applyBlock, hne],
    fun hne => by simp [undoBlock, hne], ?_⟩
  intro st' hok
  unfold applyBlock at hok ⊢
  by_cases hc : h = st.currentHeight + 1
  · rw [if_pos hc] at hok
    cases hok
    simp
  · rw [if_neg hc] at hok
    cases hok

/-- C5 witness: at head height 5, applying height 7 is rejected, and
applying height 6 twice in a row is rejected the second time. -/
theorem c5_witness :
    applyBlock ⟨5⟩ 7 = Except.error OrchError.OutOfOrderBlock
    ∧ applyBlock ⟨6⟩ 6 = Except.error OrchError.OutOfOrderBlock :=
  ⟨(c5_out_of_order_rejection ⟨5⟩ 7).1 (by decide),
    (c5_out_of_order_rejection ⟨5⟩ 6).2.2 ⟨6⟩ rfl⟩

/-- C6: for a positive round size, `roundOf` is non-decreasing over heights
h ≥ 1; each round number r ≥ 1 is hit by exactly `roundSize` consecutive
heights (the interval `[(r-1)·roundSize+1, r·roundSize]`); and every
height has exactly one round number and in-round position, recomposing to
the height (total order, no gaps). -/
theorem c6_roundOf_step_function (rs : Nat) (hrs : 0 < rs) :
    (∀ h h', 1 ≤ h → h ≤ h' → roundOf rs h ≤ roundOf rs h')
    ∧ (∀ r, 1 ≤ r →
        (Finset.Icc ((r - 1) * rs + 1) (r * rs)).card = rs
        ∧ ∀ h, 1 ≤ h →
            (roundOf rs h = r ↔ ((r - 1) * rs + 1 ≤ h ∧ h ≤ r * rs)))
    ∧ (∀ h, 1 ≤ h →
        positionOf rs h < rs
        ∧ h = (roundOf rs h - 1) * rs + positionOf rs h + 1) := by
  refine ⟨fun h h' hh hle => roundOf_mono rs hrs h h' hh hle, ?_, ?_⟩
  · intro r hr
    obtain ⟨k, rfl⟩ : ∃ k, r = k + 1 := ⟨r - 1, by omega⟩
    refine ⟨?_, fun h hh => roundOf_eq_iff rs h (k + 1) hrs hh hr⟩
    simpa using card_Icc_round rs k
  · intro h hh
    exact ⟨Nat.mod_lt _ hrs, height_decomp rs h hrs hh⟩

/-- C6 witness: with round size 3, `roundOf` is monotone from height 4 to
height 7, and exactly the three heights 4..6 form round 2. -/
theorem c6_witness :
    roundOf 3 4 ≤ roundOf 3 7
    ∧ (roundOf 3 5 = 2 ↔ ((2 - 1) * 3 + 1 ≤ 5 ∧ 5 ≤ 2 * 3)) :=
  ⟨(c6_roundOf_step_function 3 (by decide)).1 4 7 (by decide) (by decide),
    ((c6_roundOf_step_function 3 (by decide)).2.1 2 (by decide)).2 5 (by decide)⟩

/-- C7: `markBlockId` produces the Round Anchor write: the current block id
on a forward pass (or a backward pass above the round start), and a reset
to 0 on a backward pass with height effectively 0. -/
theorem c7_markBlockId_anchor (s : RoundScope) :
    ((s.backward = true ∧ s.block.height - 1 = 0) →
        RoundLogic.markBlockId s = DBOp.anchor 0)
    ∧ ((s.backward = false ∨ s.block.height - 1 ≠ 0) →
        RoundLogic.markBlockId s = DBOp.anchor s.block.id)
    ∧ isAnchorOp (RoundLogic.markBlockId s) = true := by
  refine ⟨?_, ?_, isAnchorOp_markBlockId s⟩
  · rintro ⟨h1, h2⟩
    simp [RoundLogic.markBlockId, h1, h2]
  · intro hcase
    rcases hcase with h | h <;> simp [RoundLogic.markBlockId, h]

/-- C7 witness: rolling back height 1 resets the anchor to 0, and the
forward sample scope anchors its own block id 77. -/
theorem c7_witness :
    RoundLogic.markBlockId rollbackScope = DBOp.anchor 0
    ∧ RoundLogic.markBlockId sampleScope = DBOp.anchor 77 :=
  ⟨(c7_markBlockId_anchor rollbackScope).1 ⟨rfl, rfl⟩,
    (c7_markBlockId_anchor sampleScope).2.1 (Or.inl rfl)⟩

/-- C8: a round-end scope in which no delegate forged a block still runs
`applyRound` inside `apply` (round-end processing is not skipped); its
emissions assign a zero balance share to every delegate and touch no field
other than missed-block counters. -/
theorem c8_zero_forged_round (s : RoundScope) (hre : s.isRoundEnd = true)
    (hf : s.roundForgers = []) :
    RoundLogic.apply s
      = [RoundLogic.markBlockId s] ++ RoundLogic.mergeBlockGenerator s
        ++ [RoundLogic.updateMissedBlocks s] ++ RoundLogic.applyRound s
    ∧ (∀ a, sumFor (RoundLogic.applyRound s) a AccField.balance = 0)
    ∧ (∀ a f, f ≠ AccField.missedBlocks →
        sumFor (RoundLogic.applyRound s) a f = 0) := by
  have hsh : RoundLogic.roundShares s = [] := by
    simp [RoundLogic.roundShares, hf, RoundLogic.sharesFrom]
  have hAR : RoundLogic.applyRound s = [] := by
    unfold RoundLogic.applyRound
    rw [hsh]
    simp
  refine ⟨by simp [RoundLogic.apply, hre], ?_, ?_⟩
  · intro a
    rw [hAR]
    rfl
  · intro a f _
    rw [hAR]
    rfl

/-- C8 witness: the zero-forged round-end scope yields a zero balance share
for delegate 10 while `applyRound` is still part of `apply`. -/
theorem c8_witness :
    sumFor (RoundLogic.applyRound emptyForgedScope) 10 AccField.balance = 0 :=
  (c8_zero_forged_round emptyForgedScope rfl rfl).2.1 10

/-- C9: when the accounts module has no account for an address, getBalance
succeeds with the string "0" for both balance and unconfirmedBalance,
while getAccount and getPublicKey fail with APIError "Account not found"
for the same missing account. -/
theorem c9_missing_account_divergence (m : AccountsModule) (addr : String)
    (hmiss : m.getAccount { address := addr, publicKey := none } = none)
    (haddr : addr ≠ "") :
    AccountsAPI.getBalance m addr
        = { balance := "0", unconfirmedBalance := "0" }
    ∧ AccountsAPI.getPublickey m addr = Except.error ⟨"Account not found", 200⟩
    ∧ AccountsAPI.getAccount m { address := some addr, publicKey := none }
        = Except.error ⟨"Account not found", 200⟩ := by
  refine ⟨?_, ?_, ?_⟩
  · unfold AccountsAPI.getBalance
    rw [hmiss]
  · unfold AccountsAPI.getPublickey
    rw [hmiss]
  · simp [AccountsAPI.getAccount, isEmptyS, haddr, AccountsAPI.accountLookup,
      hmiss]

/-- C9 witness: over an empty accounts module, the three endpoints behave
as proved for address "x". -/
theorem c9_witness :
    AccountsAPI.getBalance emptyModule "x"
        = { balance := "0", unconfirmedBalance := "0" }
    ∧ AccountsAPI.getAccount emptyModule { address := some "x", publicKey := none }
        = Except.error ⟨"Account not found", 200⟩ := by
  have h := c9_missing_account_divergence emptyModule "x" rfl (by decide)
  exact ⟨h.1, h.2.2⟩

/-- C10: getAccount fails with "Missing required property: address or
publicKey" when both query parameters are empty; fails with "Account
publicKey does not match address" when both are supplied and the derived
address differs from the supplied one; and whenever a publicKey is
supplied, any lookup it performs uses the filter built from the derived
address, never the supplied address. -/
theorem c10_getAccount_validation (m : AccountsModule) (q : AccQuery) :
    (isEmptyS q.address = true → isEmptyS q.publicKey = true →
      AccountsAPI.getAccount m q
        = Except.error ⟨"Missing required property: address or publicKey", 200⟩)
    ∧ (∀ a pk, q.address = some a → q.publicKey = some pk →
        isEmptyS q.address = false → isEmptyS q.publicKey = false →
        m.generateAddressByPublicKey pk ≠ a →
        AccountsAPI.getAccount m q
          = Except.error ⟨"Account publicKey does not match address", 200⟩)
    ∧ (∀ pk, q.publicKey = some pk → isEmptyS q.publicKey = false →
        AccountsAPI.getAccount m q
            = Except.error ⟨"Account publicKey does not match address", 200⟩
        ∨ AccountsAPI.getAccount m q
            = AccountsAPI.accountLookup m
                { address := m.generateAddressByPublicKey pk
                  publicKey := some pk }) := by
  refine ⟨?_, ?_, ?_⟩
  · intro h1 h2
    simp [AccountsAPI.getAccount, h1, h2]
  · intro a pk ha hpk h1 h2 hne
    rw [ha] at h1
    rw [hpk] at h2
    simp [AccountsAPI.getAccount, ha, hpk, h1, h2, hne]
  · intro pk hpk h2
    rw [hpk] at h2
    unfold AccountsAPI.getAccount
    rw [hpk, h2]
    simp only [Bool.and_false, Bool.false_eq_true, if_false, Bool.not_false,
      Bool.and_true, Option.getD_some, if_true]
    split
    · exact Or.inl rfl
    · exact Or.inr rfl

/-- C10 witness: with the empty module (derived address "Ak"), the query
(address "x", publicKey "k") fails the match check. -/
theorem c10_witness :
    AccountsAPI.getAccount emptyModule { address := some "x", publicKey := some "k" }
      = Except.error ⟨"Account publicKey does not match address", 200⟩ :=
  (c10_getAccount_validation emptyModule
      { address := some "x", publicKey := some "k" }).2.1
    "x" "k" rfl rfl (by decide) (by decide) (by decide)
